import Mathlib

/-!
# Verification of the 2048 board-transition engine (src/2048.c)

Shallow embedding of the core of `2048.c`: the board data type, the rotator
(`rotate_cw`), the merger (`move_nonzero_first`, `merge_row_left`, `merge_left`),
the scorer (`dscore`), the spawner (`new_tile`), the loss detector (`is_loss`),
and the move engine (`update`).

Modelling conventions:
* `u8 tiles[4][4]` is embedded as a `List (List Nat)`; the fixed 4×4 shape of
  the C array is captured by the predicate `Board.Valid`.  Tile exponents are
  `Nat` (the C stores them in `u8`; all values that occur stay far below 2^8,
  so `Nat` arithmetic is faithful).
* The C library generator `rand_r` is external to the repository; it is
  modelled as an explicit stream `randr : Nat → Nat × Nat` mapping a seed to
  (draw, next seed), threaded exactly where the C calls `rand_r(&seed)`.
* `int` score arithmetic and the `i8` count arrays of `dscore` are embedded in
  `Int`; the quantities involved (counts in [-2, 16], scores below 2^16) never
  approach the C types' ranges, so no wrap-around modelling is needed.
-/

namespace Game2048

/-- `#define TARGET_TILE 11` — 2^11 = 2048. -/
def TARGET_TILE : Nat := 11

/-- `#define TILES_PER_DIM 4`. -/
def TILES_PER_DIM : Nat := 4

/-- `struct board`: 4×4 grid of tile exponents; `tiles[i][j] = 0` means no
tile, otherwise the tile's log₂ value. Embedded as a list of rows. -/
abbrev Board := List (List Nat)

/-- Read `b.tiles[i][j]` (0 outside the 4×4 range, which the C never reads). -/
def Board.cell (b : Board) (i j : Nat) : Nat := (b.getD i []).getD j 0

/-- The fixed 4×4 shape of the C array `u8 tiles[4][4]`. -/
def Board.Valid (b : Board) : Prop := b.length = 4 ∧ ∀ row ∈ b, row.length = 4

instance : DecidablePred Board.Valid := fun b => by
  unfold Board.Valid; infer_instance

/-- `count_zeros`: number of empty cells, scanning the 4×4 grid row by row
(`zeros += b.tiles[i][j] == 0`). -/
def count_zeros (b : Board) : Nat :=
  (b.map fun row => row.countP (· = 0)).sum

/-- `rotate_cw`: `r.tiles[i][j] = b.tiles[4-j-1][i]`. -/
def rotate_cw (b : Board) : Board :=
  (List.range 4).map fun i => (List.range 4).map fun j => b.cell (3 - j) i

/-- `rotate_cw` applied `n` times. -/
def rotIter (n : Nat) (b : Board) : Board := Nat.iterate rotate_cw n b

/-- `move_nonzero_first(row, len)`: within the first `len` entries, pack the
nonzero entries to the front preserving order and zero-fill the rest
(`memset(&row[num_nonzero], 0, len - num_nonzero)`); entries past `len` are
untouched. -/
def move_nonzero_first (row : List Nat) (len : Nat) : List Nat :=
  let nz := (row.take len).filter (· ≠ 0)
  (nz ++ List.replicate (len - nz.length) 0) ++ row.drop len

/-- The value `move_nonzero_first` returns in C: the number of nonzero entries
among the first `len`. -/
def num_nonzero (row : List Nat) (len : Nat) : Nat :=
  ((row.take len).filter (· ≠ 0)).length

/-- One iteration of the merge loop body of `merge_row_left`:
`if(row[i] != row[i+1]) continue; row[i]++; row[i+1] = 0;`. -/
def mergeAt (row : List Nat) (i : Nat) : List Nat :=
  if row.getD i 0 = row.getD (i + 1) 0 then
    (row.set i (row.getD i 0 + 1)).set (i + 1) 0
  else row

/-- `merge_row_left`: compact the row, run the merge loop for
`i = 0 .. num_nonzero - 2` in order, compact the first `num_nonzero` entries
again. -/
def merge_row_left (row : List Nat) : List Nat :=
  let r1 := move_nonzero_first row 4
  let n := num_nonzero row 4
  let r2 := (List.range (n - 1)).foldl mergeAt r1
  move_nonzero_first r2 n

/-- `merge_left`: merge every row of the board leftward. -/
def merge_left (b : Board) : Board := b.map merge_row_left

/-- `is_victory`: some cell has exponent ≥ TARGET_TILE
(`r |= b.tiles[i][j] >= TARGET_TILE`). -/
def is_victory (b : Board) : Bool :=
  b.any fun row => row.any fun e => TARGET_TILE ≤ e

/-- `is_loss`: fold `no_moves &= eq(b, merge_left(b)); b = rotate_cw(b)` four
times (`eq` is `memcmp` equality of the two 4×4 arrays). -/
def is_loss (b : Board) : Bool :=
  ((List.range 4).foldl
    (fun st _ => (st.1 && decide (st.2 = merge_left st.2), rotate_cw st.2))
    (true, b)).1

/-- The four curses arrow keys consumed by `update`, plus any other key. -/
inductive Key | left | right | up | down | other
deriving DecidableEq

/-- `cw_rotations_of_key`: LEFT→0, DOWN→1, RIGHT→2, UP→3, anything else → -1. -/
def cw_rotations_of_key : Key → Int
  | .left => 0
  | .down => 1
  | .right => 2
  | .up => 3
  | .other => -1

/-- `b0_count` / `b1_count` of `dscore`: occurrences of exponent `v` in the
grid (the C tallies the 16 cells into an `i8[12]` array; exponents of valid
boards lie in [0,11]). -/
def tileCount (b : Board) (v : Nat) : Int :=
  ((b.map fun row => row.countP (· = v)).sum : Nat)

/-- The scoring loop of `dscore`, for `i = TARGET_TILE .. 1` descending:
`dcount = b1_count[i] - b0_count[i]; if(dcount > 0) { b0_count[i-1] -= 2;
score += dcount << i; }`. -/
def dscoreLoop : List Nat → (Nat → Int) → (Nat → Int) → Int → Int
  | [], _, _, score => score
  | i :: rest, c0, c1, score =>
    let dcount := c1 i - c0 i
    if 0 < dcount then
      dscoreLoop rest (fun v => if v = i - 1 then c0 v - 2 else c0 v) c1
        (score + dcount * 2 ^ i)
    else
      dscoreLoop rest c0 c1 score

/-- `dscore(b0, b1)`. -/
def dscore (b0 b1 : Board) : Int :=
  dscoreLoop [11, 10, 9, 8, 7, 6, 5, 4, 3, 2, 1] (tileCount b0) (tileCount b1) 0

/-- The cell-scan of `new_tile` over one row: at each empty cell,
`if(tile-- == 0) b.tiles[i][j] = tile_size;` (the counter, a C `int`, keeps
decrementing below zero, so exactly one cell is written). Returns the updated
row and counter. -/
def spawnRow : List Nat → Int → Nat → List Nat × Int
  | [], tile, _ => ([], tile)
  | x :: xs, tile, tile_size =>
    if x ≠ 0 then
      let (rest, t) := spawnRow xs tile tile_size
      (x :: rest, t)
    else
      let y := if tile = 0 then tile_size else x
      let (rest, t) := spawnRow xs (tile - 1) tile_size
      (y :: rest, t)

/-- The row-major double loop of `new_tile`, threading the counter across rows. -/
def spawnRows : List (List Nat) → Int → Nat → List (List Nat) × Int
  | [], tile, _ => ([], tile)
  | row :: rows, tile, tile_size =>
    let (row', t) := spawnRow row tile tile_size
    let (rows', t') := spawnRows rows t tile_size
    (row' :: rows', t')

/-- `new_tile` with the two `rand_r` results passed explicitly:
`tile = r1 % zeros` (the C divides by zero when the grid is full — the model is
only meaningful under the precondition `count_zeros b ≠ 0`, see `update`),
`tile_size = 1 + (r2 % 10 < 1)`. -/
def new_tile (b : Board) (r1 r2 : Nat) : Board :=
  let zeros := count_zeros b
  let tile : Int := (r1 % zeros : Nat)
  let tile_size : Nat := 1 + (if r2 % 10 < 1 then 1 else 0)
  (spawnRows b tile tile_size).1

/-- `new_tile(b, &seed)` with `rand_r` modelled as an explicit stream `randr`
from seed to (draw, next seed); the C calls `rand_r(seed)` twice. -/
def new_tile_r (randr : Nat → Nat × Nat) (b : Board) (seed : Nat) :
    Board × Nat :=
  let p1 := randr seed
  let p2 := randr p1.2
  (new_tile b p1.1 p2.1, p2.2)

/-- `struct game`. -/
structure Game where
  board : Board
  score : Int
  seed : Nat
deriving DecidableEq

/-- The rotation/merge loop of `update`:
`for(i = 0..3) { if(i == rotations) board = merge_left(board); board = rotate_cw(board); }`. -/
def slide (b : Board) (rotations : Int) : Board :=
  (List.range 4).foldl
    (fun bd i => rotate_cw (if (i : Int) = rotations then merge_left bd else bd)) b

/-- `update(g, key)`: translate the key, slide the board, add the score delta,
and spawn a tile iff the board changed. -/
def update (randr : Nat → Nat × Nat) (g : Game) (key : Key) : Game :=
  let rotations := cw_rotations_of_key key
  if rotations < 0 then g
  else
    let b0 := g.board
    let b1 := slide b0 rotations
    let score := g.score + dscore b0 b1
    if b1 = b0 then { board := b1, score := score, seed := g.seed }
    else
      let p := new_tile_r randr b1 g.seed
      { board := p.1, score := score, seed := p.2 }

def mergePairs : List Nat → List Nat
  | a :: b :: rest => if a = b then (a + 1) :: mergePairs rest
                      else a :: mergePairs (b :: rest)
  | l => l

def mergeSpec (row : List Nat) : List Nat :=
  let m := mergePairs (row.filter (· ≠ 0))
  m ++ List.replicate (4 - m.length) 0


/-- Displayed value of one tile: `2^e` for a present tile, 0 for an empty cell. -/
def tileValue (e : Nat) : Nat := if e = 0 then 0 else 2 ^ e

/-- Total displayed value of a row. -/
def rowValue (row : List Nat) : Nat := (row.map tileValue).sum


/-- Total displayed value of the grid: `2^e` summed over the present tiles. -/
def total_value (b : Board) : Nat := (b.map rowValue).sum


/-- Positions (indices) of the zero entries of a row, in order. -/
def zeroPos : List Nat → List Nat
  | [] => []
  | x :: xs =>
    if x = 0 then 0 :: (zeroPos xs).map (· + 1)
    else (zeroPos xs).map (· + 1)

/-- Coordinates of the empty cells of the grid in row-major order. -/
def emptyCells : Board → List (Nat × Nat)
  | [] => []
  | row :: rows =>
    (zeroPos row).map (fun j => (0, j)) ++
      (emptyCells rows).map (fun p => (p.1 + 1, p.2))

/-- Overwrite the single cell `(i, j)` of the grid with exponent `v`. -/
def setCell (b : Board) (i j v : Nat) : Board :=
  b.set i ((b.getD i []).set j v)


/-- The scoring loop exactly as the specification words it: when exponent `i`
has `dcount > 0` surplus occurrences, the available count at `i - 1` drops by
`2 * dcount` — two `i-1` tiles consumed per tile created — where the C code
subtracts a flat 2. -/
def dscoreSpecLoop : List Nat → (Nat → Int) → (Nat → Int) → Int → Int
  | [], _, _, score => score
  | i :: rest, c0, c1, score =>
    let dcount := c1 i - c0 i
    if 0 < dcount then
      dscoreSpecLoop rest
        (fun v => if v = i - 1 then c0 v - 2 * dcount else c0 v) c1
        (score + dcount * 2 ^ i)
    else
      dscoreSpecLoop rest c0 c1 score

/-- The specified scorer: scan `v` from highest to lowest, pay `2^v` per
surplus occurrence, consume `2` tiles at `v-1` per surplus unit. -/
def dscoreSpec (b0 b1 : Board) : Int :=
  dscoreSpecLoop [11, 10, 9, 8, 7, 6, 5, 4, 3, 2, 1]
    (tileCount b0) (tileCount b1) 0


/-- A concrete valid board used to instantiate hypotheses in closed corollaries. -/
def sampleBoard : Board := [[1, 1, 2, 0], [0, 3, 0, 3], [2, 2, 2, 2], [0, 0, 0, 5]]


/-! ## Shape and destructuring helpers -/

theorem exists_len4 {α : Type} {l : List α} (h : l.length = 4) :
    ∃ a b c d, l = [a, b, c, d] := by
  rcases l with _ | ⟨a, _ | ⟨b, _ | ⟨c, _ | ⟨d, _ | ⟨e, t⟩⟩⟩⟩⟩ <;> simp_all

theorem Board.valid_destruct {b : Board} (h : b.Valid) :
    ∃ a0 a1 a2 a3 b0 b1 b2 b3 c0 c1 c2 c3 d0 d1 d2 d3,
      b = [[a0, a1, a2, a3], [b0, b1, b2, b3],
           [c0, c1, c2, c3], [d0, d1, d2, d3]] := by
  obtain ⟨hl, hr⟩ := h
  obtain ⟨r0, r1, r2, r3, rfl⟩ := exists_len4 hl
  obtain ⟨a0, a1, a2, a3, rfl⟩ := exists_len4 (hr r0 (by simp))
  obtain ⟨b0, b1, b2, b3, rfl⟩ := exists_len4 (hr r1 (by simp))
  obtain ⟨c0, c1, c2, c3, rfl⟩ := exists_len4 (hr r2 (by simp))
  obtain ⟨d0, d1, d2, d3, rfl⟩ := exists_len4 (hr r3 (by simp))
  exact ⟨_, _, _, _, _, _, _, _, _, _, _, _, _, _, _, _, rfl⟩

theorem rotate_cw_valid (b : Board) : (rotate_cw b).Valid := by
  constructor
  · simp [rotate_cw]
  · intro row hrow
    simp only [rotate_cw, List.mem_map, List.mem_range] at hrow
    obtain ⟨i, _, rfl⟩ := hrow
    simp

theorem rotate_cw_four {b : Board} (h : b.Valid) :
    rotate_cw (rotate_cw (rotate_cw (rotate_cw b))) = b := by
  obtain ⟨a0, a1, a2, a3, b0, b1, b2, b3, c0, c1, c2, c3, d0, d1, d2, d3, rfl⟩ :=
    Board.valid_destruct h
  rfl

theorem rotate_cw_inj {x y : Board} (hx : x.Valid) (hy : y.Valid)
    (h : rotate_cw x = rotate_cw y) : x = y := by
  have h4 := congrArg (fun z => rotate_cw (rotate_cw (rotate_cw z))) h
  simpa [rotate_cw_four hx, rotate_cw_four hy] using h4

theorem num_nonzero_le (row : List Nat) (len : Nat) : num_nonzero row len ≤ len :=
  le_trans (List.length_filter_le _ _) (by simp)

theorem length_move_nonzero_first (row : List Nat) (len : Nat)
    (h : len ≤ row.length) :
    (move_nonzero_first row len).length = row.length := by
  have hf : ((row.take len).filter (· ≠ 0)).length ≤ len :=
    le_trans (List.length_filter_le _ _) (by simp)
  simp only [move_nonzero_first, List.length_append, List.length_replicate,
    List.length_drop]
  omega

theorem length_mergeAt (row : List Nat) (i : Nat) :
    (mergeAt row i).length = row.length := by
  unfold mergeAt; split_ifs <;> simp

theorem length_foldl_mergeAt (l : List Nat) (row : List Nat) :
    (l.foldl mergeAt row).length = row.length := by
  induction l generalizing row with
  | nil => rfl
  | cons j t ih => rw [List.foldl_cons, ih, length_mergeAt]

theorem length_merge_row_left (row : List Nat) (h : row.length = 4) :
    (merge_row_left row).length = 4 := by
  unfold merge_row_left
  rw [length_move_nonzero_first, length_foldl_mergeAt, length_move_nonzero_first]
  · exact h
  · omega
  · rw [length_foldl_mergeAt, length_move_nonzero_first _ _ (by omega)]
    exact le_trans (num_nonzero_le row 4) (by omega)

theorem merge_left_valid {b : Board} (h : b.Valid) : (merge_left b).Valid := by
  obtain ⟨hl, hr⟩ := h
  refine ⟨by simpa [merge_left], ?_⟩
  intro row hrow
  simp only [merge_left, List.mem_map] at hrow
  obtain ⟨r, hrmem, rfl⟩ := hrow
  exact length_merge_row_left r (hr r hrmem)

theorem rotIter_valid {b : Board} (h : b.Valid) (n : Nat) : (rotIter n b).Valid := by
  induction n with
  | zero => exact h
  | succ k ih =>
    rw [rotIter, Function.iterate_succ_apply']
    exact rotate_cw_valid _

/-! ## The rotation/merge loop of `update` -/

theorem slide_zero (b : Board) :
    slide b 0 = rotate_cw (rotate_cw (rotate_cw (rotate_cw (merge_left b)))) := rfl

theorem slide_one (b : Board) :
    slide b 1 = rotate_cw (rotate_cw (rotate_cw (merge_left (rotate_cw b)))) := rfl

theorem slide_two (b : Board) :
    slide b 2 = rotate_cw (rotate_cw (merge_left (rotate_cw (rotate_cw b)))) := rfl

theorem slide_three (b : Board) :
    slide b 3 = rotate_cw (merge_left (rotate_cw (rotate_cw (rotate_cw b)))) := rfl

theorem slide_neg_one (b : Board) :
    slide b (-1) = rotate_cw (rotate_cw (rotate_cw (rotate_cw b))) := rfl

theorem slide_zero_valid (b : Board) (h : b.Valid) :
    slide b 0 = merge_left b := by
  rw [slide_zero, rotate_cw_four (merge_left_valid h)]

/-- C3: for every valid grid, the move engine's rotation/merge loop realises
each direction as: rotate clockwise `r` times, merge each row left, then
rotate clockwise `(4 - r) % 4` times back, with `r` = 0 for Left, 1 for Down,
2 for Right and 3 for Up. -/
theorem slide_is_rotate_merge_rotate {b : Board} (h : b.Valid) :
    slide b (cw_rotations_of_key .left) =
        rotIter ((4 - 0) % 4) (merge_left (rotIter 0 b)) ∧
      slide b (cw_rotations_of_key .down) =
        rotIter ((4 - 1) % 4) (merge_left (rotIter 1 b)) ∧
      slide b (cw_rotations_of_key .right) =
        rotIter ((4 - 2) % 4) (merge_left (rotIter 2 b)) ∧
      slide b (cw_rotations_of_key .up) =
        rotIter ((4 - 3) % 4) (merge_left (rotIter 3 b)) := by
  refine ⟨?_, rfl, rfl, rfl⟩
  show slide b 0 = merge_left b
  exact slide_zero_valid b h

/-- Closed instance of `slide_is_rotate_merge_rotate` at a concrete board. -/
theorem slide_is_rotate_merge_rotate_witness :
    sampleBoard.Valid ∧
      (slide sampleBoard (cw_rotations_of_key .left) =
          rotIter ((4 - 0) % 4) (merge_left (rotIter 0 sampleBoard)) ∧
        slide sampleBoard (cw_rotations_of_key .down) =
          rotIter ((4 - 1) % 4) (merge_left (rotIter 1 sampleBoard)) ∧
        slide sampleBoard (cw_rotations_of_key .right) =
          rotIter ((4 - 2) % 4) (merge_left (rotIter 2 sampleBoard)) ∧
        slide sampleBoard (cw_rotations_of_key .up) =
          rotIter ((4 - 3) % 4) (merge_left (rotIter 3 sampleBoard))) :=
  ⟨by decide, slide_is_rotate_merge_rotate (by decide)⟩

/-! ## The scorer on equal grids -/

theorem dscoreLoop_self (l : List Nat) (c : Nat → Int) (s : Int) :
    dscoreLoop l c c s = s := by
  induction l generalizing c s with
  | nil => rfl
  | cons i t ih => simp [dscoreLoop, ih]

theorem dscore_self (b : Board) : dscore b b = 0 :=
  dscoreLoop_self _ _ _

/-- C4: if the rotate–merge–rotate-back step leaves the grid unchanged, the
move engine returns the game state untouched: same grid, score delta 0, no
tile spawned, and the seed not advanced. -/
theorem update_noop (randr : Nat → Nat × Nat) (g : Game) (key : Key)
    (hk : key ≠ .other)
    (h : slide g.board (cw_rotations_of_key key) = g.board) :
    update randr g key = g := by
  have hrot : ¬ cw_rotations_of_key key < 0 := by
    cases key <;> simp_all [cw_rotations_of_key]
  unfold update
  rw [if_neg hrot]
  simp [h, dscore_self]

/-- Closed instance of `update_noop`: pushing left on an already left-packed
board is a no-op. -/
theorem update_noop_witness :
    (Key.left ≠ Key.other) ∧
      slide (⟨[[1, 2, 0, 0], [3, 0, 0, 0], [0, 0, 0, 0], [5, 1, 0, 0]],
        7, 42⟩ : Game).board (cw_rotations_of_key .left) =
        [[1, 2, 0, 0], [3, 0, 0, 0], [0, 0, 0, 0], [5, 1, 0, 0]] ∧
      update (fun s => (0, s))
        ⟨[[1, 2, 0, 0], [3, 0, 0, 0], [0, 0, 0, 0], [5, 1, 0, 0]], 7, 42⟩ .left =
        ⟨[[1, 2, 0, 0], [3, 0, 0, 0], [0, 0, 0, 0], [5, 1, 0, 0]], 7, 42⟩ :=
  ⟨by decide, by decide,
    update_noop (fun s => (0, s))
      ⟨[[1, 2, 0, 0], [3, 0, 0, 0], [0, 0, 0, 0], [5, 1, 0, 0]], 7, 42⟩ .left
      (by decide) (by decide)⟩

/-! ## A closed form for the merge of a 4-entry row

`mergePairs` is the single left-to-right merge pass on the compacted
(zero-free) part of a row; `mergeSpec` is compaction, one merge pass, and
re-compaction in closed form.  `merge_row_left_eq_spec` proves the C loop
equal to this closed form on every 4-entry row. -/

set_option maxHeartbeats 1000000 in
theorem merge_row_left_eq_spec (a b c d : Nat) :
    merge_row_left [a, b, c, d] = mergeSpec [a, b, c, d] := by
  rcases eq_or_ne a 0 with ha | ha <;> rcases eq_or_ne b 0 with hb | hb <;>
    rcases eq_or_ne c 0 with hc | hc <;> rcases eq_or_ne d 0 with hd | hd <;>
    subst_vars <;>
    simp_all [merge_row_left, move_nonzero_first, num_nonzero, mergeAt,
      mergeSpec, mergePairs, List.range_succ] <;>
    (repeat (split <;> simp_all [mergePairs]))

theorem merge_row_left_spec {row : List Nat} (h : row.length = 4) :
    merge_row_left row = mergeSpec row := by
  obtain ⟨a, b, c, d, rfl⟩ := exists_len4 h
  exact merge_row_left_eq_spec a b c d

theorem mergePairs_length_le (l : List Nat) : (mergePairs l).length ≤ l.length := by
  induction l using mergePairs.induct <;> simp_all [mergePairs] <;> omega

theorem mergePairs_pow_sum (l : List Nat) :
    ((mergePairs l).map (2 ^ ·)).sum = (l.map (2 ^ ·)).sum := by
  induction l using mergePairs.induct <;> simp_all [mergePairs, pow_succ] <;> omega

theorem mergePairs_ne_zero {l : List Nat} (h : ∀ x ∈ l, x ≠ 0) :
    ∀ x ∈ mergePairs l, x ≠ 0 := by
  induction l using mergePairs.induct <;> simp_all [mergePairs]

theorem mergePairs_eq_self_of_length {l : List Nat}
    (h : (mergePairs l).length = l.length) : mergePairs l = l := by
  induction l using mergePairs.induct with
  | case1 b rest ih =>
    exfalso
    have hle := mergePairs_length_le rest
    simp [mergePairs] at h
    omega
  | case2 a b rest hab ih => simp_all [mergePairs, hab]
  | case3 l hs =>
    cases l with
    | nil => rfl
    | cons x xs =>
      cases xs with
      | nil => rfl
      | cons y ys => exact absurd rfl (hs x y ys)

theorem mergePairs_eq_self_of_chain {l : List Nat} (hnz : ∀ x ∈ l, x ≠ 0)
    (h : l.Chain' (fun x y => x = y → x = 0)) : mergePairs l = l := by
  induction l using mergePairs.induct with
  | case1 b rest ih =>
    exact absurd ((List.chain'_cons.mp h).1 rfl) (hnz b (by simp))
  | case2 a b rest hab ih =>
    have h2 := (List.chain'_cons.mp h).2
    simp_all [mergePairs, hab]
  | case3 l hs =>
    cases l with
    | nil => rfl
    | cons x xs =>
      cases xs with
      | nil => rfl
      | cons y ys => exact absurd rfl (hs x y ys)

theorem filter_length_add_countZ (l : List Nat) :
    (l.filter (· ≠ 0)).length + l.countP (· = 0) = l.length := by
  induction l with
  | nil => rfl
  | cons x xs ih =>
    by_cases hx : x = 0 <;> simp_all [List.countP_cons, hx] <;> omega

theorem countZ_replicate_zero (k : Nat) :
    (List.replicate k 0).countP (fun x => decide (x = 0)) = k := by
  induction k with
  | zero => rfl
  | succ n ih => simp [List.replicate_succ, List.countP_cons, ih]

/-- Zeros never get lost: the merged row has at least as many empty cells as
the row it came from. -/
theorem countZ_merge_row_left {row : List Nat} (h : row.length = 4) :
    row.countP (· = 0) ≤ (merge_row_left row).countP (· = 0) := by
  rw [merge_row_left_spec h]
  have h1 := mergePairs_length_le (row.filter (· ≠ 0))
  have h2 := filter_length_add_countZ row
  have h3 : (row.filter (· ≠ 0)).length ≤ 4 :=
    le_trans (List.length_filter_le _ _) (le_of_eq h)
  simp only [mergeSpec, List.countP_append, countZ_replicate_zero]
  omega

/-- A full row that merges to a full row is unchanged by the merge. -/
theorem merge_row_left_full {row : List Nat} (h : row.length = 4)
    (hnz : ∀ x ∈ row, x ≠ 0)
    (hz : (merge_row_left row).countP (· = 0) = 0) :
    merge_row_left row = row := by
  rw [merge_row_left_spec h] at hz ⊢
  have hfilter : row.filter (· ≠ 0) = row := List.filter_eq_self.mpr (by simpa)
  rw [mergeSpec, hfilter] at hz ⊢
  have h1 := mergePairs_length_le row
  rw [List.countP_append, countZ_replicate_zero] at hz
  have hlen : (mergePairs row).length = row.length := by omega
  rw [mergePairs_eq_self_of_length hlen, h]
  simp

theorem rowValue_filter (l : List Nat) :
    rowValue (l.filter (· ≠ 0)) = rowValue l := by
  induction l with
  | nil => rfl
  | cons x xs ih =>
    by_cases hx : x = 0 <;> simp_all [rowValue, hx, tileValue]

theorem rowValue_eq_pow_sum {l : List Nat} (h : ∀ x ∈ l, x ≠ 0) :
    rowValue l = (l.map (2 ^ ·)).sum := by
  unfold rowValue
  congr 1
  exact List.map_congr_left fun x hx => by simp [tileValue, h x hx]

/-- The merge conserves the total displayed value of a row. -/
theorem rowValue_merge_row_left {row : List Nat} (h : row.length = 4) :
    rowValue (merge_row_left row) = rowValue row := by
  rw [merge_row_left_spec h]
  have hnzf : ∀ x ∈ row.filter (· ≠ 0), x ≠ 0 := by simp
  have hnzm := mergePairs_ne_zero hnzf
  calc rowValue (mergeSpec row)
      = rowValue (mergePairs (row.filter (· ≠ 0))) := by
        simp [mergeSpec, rowValue, tileValue]
    _ = ((mergePairs (row.filter (· ≠ 0))).map (2 ^ ·)).sum :=
        rowValue_eq_pow_sum hnzm
    _ = ((row.filter (· ≠ 0)).map (2 ^ ·)).sum := mergePairs_pow_sum _
    _ = rowValue (row.filter (· ≠ 0)) := (rowValue_eq_pow_sum hnzf).symm
    _ = rowValue row := rowValue_filter row

theorem filter_append_replicate_zero {m : List Nat} (h : ∀ x ∈ m, x ≠ 0)
    (k : Nat) : (m ++ List.replicate k 0).filter (· ≠ 0) = m := by
  rw [List.filter_append, List.filter_eq_self.mpr (by simpa)]
  simp

/-- A merged row whose result has no two adjacent equal nonzero tiles is a
fixed point of the merge. -/
theorem mergeSpec_idem {row : List Nat}
    (h : (mergeSpec row).Chain' (fun x y => x = y → x = 0)) :
    mergeSpec (mergeSpec row) = mergeSpec row := by
  have hnzf : ∀ x ∈ row.filter (· ≠ 0), x ≠ 0 := by simp
  have hnzm := mergePairs_ne_zero hnzf
  have hchain : (mergePairs (row.filter (· ≠ 0))).Chain'
      (fun x y => x = y → x = 0) := by
    rw [mergeSpec, List.chain'_append] at h
    exact h.1
  conv_lhs => rw [mergeSpec, mergeSpec]
  rw [filter_append_replicate_zero hnzm,
    mergePairs_eq_self_of_chain hnzm hchain]
  rfl

/-! ## Grid-level conservation laws -/

theorem count_zeros_merge_le {b : Board} (h : b.Valid) :
    count_zeros b ≤ count_zeros (merge_left b) := by
  unfold count_zeros merge_left
  rw [List.map_map]
  apply List.sum_le_sum
  intro row hrow
  exact countZ_merge_row_left (h.2 row hrow)

/-- C5: for every 4×4 grid, the number of empty cells after `merge_left` is
at least the number of empty cells before. -/
theorem merge_left_empty_cells_mono {b : Board} (h : b.Valid) :
    count_zeros b ≤ count_zeros (merge_left b) :=
  count_zeros_merge_le h

/-- Closed instance of `merge_left_empty_cells_mono` at a concrete board. -/
theorem merge_left_empty_cells_mono_witness :
    sampleBoard.Valid ∧ count_zeros sampleBoard ≤ count_zeros (merge_left sampleBoard) :=
  ⟨by decide, merge_left_empty_cells_mono (by decide)⟩

theorem total_value_merge_left_eq {b : Board} (h : b.Valid) :
    total_value (merge_left b) = total_value b := by
  unfold total_value merge_left
  rw [List.map_map]
  exact congrArg List.sum
    (List.map_congr_left fun row hrow => rowValue_merge_row_left (h.2 row hrow))

/-- C10: `merge_left` conserves the total displayed tile value of the grid. -/
theorem merge_left_conserves_value {b : Board} (h : b.Valid) :
    total_value (merge_left b) = total_value b :=
  total_value_merge_left_eq h

/-- Closed instance of `merge_left_conserves_value` at a concrete board. -/
theorem merge_left_conserves_value_witness :
    sampleBoard.Valid ∧ total_value (merge_left sampleBoard) = total_value sampleBoard :=
  ⟨by decide, merge_left_conserves_value (by decide)⟩

/-! ## Merge idempotence (refuted, then repaired) -/

/-- C2 counterexample: a second merge pass does change the row `[1,1,1,1]`
(`[1,1,1,1] → [2,2,0,0] → [3,0,0,0]`). -/
theorem merge_row_left_not_idempotent :
    ¬ merge_row_left (merge_row_left [1, 1, 1, 1]) = merge_row_left [1, 1, 1, 1] := by
  decide

theorem mergeSpec_length {row : List Nat} (h : row.length = 4) :
    (mergeSpec row).length = 4 := by
  have h1 := mergePairs_length_le (row.filter (· ≠ 0))
  have h3 : (row.filter (· ≠ 0)).length ≤ 4 :=
    le_trans (List.length_filter_le _ _) (le_of_eq h)
  simp only [mergeSpec, List.length_append, List.length_replicate]
  omega

/-- C2 amended: the merge is idempotent on every row whose merged result has
no two adjacent equal nonzero tiles; `[1,1,1,1]` shows the unrestricted law
fails. -/
theorem merge_row_left_idem {row : List Nat} (h : row.length = 4)
    (hc : (merge_row_left row).Chain' (fun x y => x = y → x = 0)) :
    merge_row_left (merge_row_left row) = merge_row_left row := by
  rw [merge_row_left_spec h] at hc ⊢
  rw [merge_row_left_spec (mergeSpec_length h)]
  exact mergeSpec_idem hc

/-- Closed instance of `merge_row_left_idem`: `[3,3,1,2]` merges to
`[4,1,2,0]`, which a second pass leaves unchanged. -/
theorem merge_row_left_idem_witness :
    ([3, 3, 1, 2] : List Nat).length = 4 ∧
      (merge_row_left [3, 3, 1, 2]).Chain' (fun x y => x = y → x = 0) ∧
      merge_row_left (merge_row_left [3, 3, 1, 2]) = merge_row_left [3, 3, 1, 2] := by
  have hc : (merge_row_left [3, 3, 1, 2]).Chain' (fun x y => x = y → x = 0) := by
    rw [show merge_row_left [3, 3, 1, 2] = [4, 1, 2, 0] from by decide]
    simp [List.chain'_cons]
  exact ⟨by decide, hc, merge_row_left_idem (by decide) hc⟩

/-- C8: a row `[a,a,a,0]` with `a` nonzero merges to `[a+1,a,0,0]` — only the
leftmost pair merges, with no triple merge or cascade. -/
theorem merge_row_left_three_equal (a : Nat) (ha : a ≠ 0) :
    merge_row_left [a, a, a, 0] = [a + 1, a, 0, 0] := by
  rw [merge_row_left_eq_spec]
  simp [mergeSpec, mergePairs, ha, List.replicate_succ]

/-- Closed instance of `merge_row_left_three_equal` at `a = 1`. -/
theorem merge_row_left_three_equal_witness :
    (1 : Nat) ≠ 0 ∧ merge_row_left [1, 1, 1, 0] = [1 + 1, 1, 0, 0] :=
  ⟨by decide, merge_row_left_three_equal 1 (by decide)⟩

/-! ## Rotation, empty cells, and full grids -/

theorem count_zeros_rotate_cw {b : Board} (h : b.Valid) :
    count_zeros (rotate_cw b) = count_zeros b := by
  obtain ⟨a0, a1, a2, a3, b0, b1, b2, b3, c0, c1, c2, c3, d0, d1, d2, d3, rfl⟩ :=
    Board.valid_destruct h
  show count_zeros [[d0, c0, b0, a0], [d1, c1, b1, a1],
    [d2, c2, b2, a2], [d3, c3, b3, a3]] = _
  simp [count_zeros, List.countP_cons]
  ring

theorem merge_left_of_full {x : Board} (hx : x.Valid)
    (hzx : count_zeros x = 0) (hzm : count_zeros (merge_left x) = 0) :
    merge_left x = x := by
  have hrow : ∀ row ∈ x, merge_row_left row = row := by
    intro row hrow
    have h1 : row.countP (· = 0) = 0 := by
      refine List.sum_eq_zero_iff.mp hzx _ ?_
      exact List.mem_map.mpr ⟨row, hrow, rfl⟩
    have h2 : (merge_row_left row).countP (· = 0) = 0 := by
      refine List.sum_eq_zero_iff.mp hzm _ ?_
      refine List.mem_map.mpr ⟨merge_row_left row, ?_, rfl⟩
      exact List.mem_map.mpr ⟨row, hrow, rfl⟩
    have hnz : ∀ e ∈ row, e ≠ 0 := by
      intro e he
      have := List.countP_eq_zero.mp h1 e he
      simpa using this
    exact merge_row_left_full (hx.2 row hrow) hnz h2
  calc merge_left x = x.map id := List.map_congr_left hrow
    _ = x := List.map_id x

/-! ## Fixed points of the four directional slides -/

theorem slide_zero_eq_iff {b : Board} (hb : b.Valid) :
    slide b 0 = b ↔ merge_left b = b := by
  rw [slide_zero_valid b hb]

theorem slide_one_eq_iff {b : Board} (hb : b.Valid) :
    slide b 1 = b ↔ merge_left (rotate_cw b) = rotate_cw b := by
  have hX : (merge_left (rotate_cw b)).Valid := merge_left_valid (rotate_cw_valid b)
  rw [slide_one]
  constructor
  · intro h
    have h2 := congrArg rotate_cw h
    rwa [rotate_cw_four hX] at h2
  · intro h
    rw [h]
    exact rotate_cw_four hb

theorem slide_two_eq_iff {b : Board} (hb : b.Valid) :
    slide b 2 = b ↔
      merge_left (rotate_cw (rotate_cw b)) = rotate_cw (rotate_cw b) := by
  have hX : (merge_left (rotate_cw (rotate_cw b))).Valid :=
    merge_left_valid (rotate_cw_valid _)
  rw [slide_two]
  constructor
  · intro h
    have h2 := congrArg (fun z => rotate_cw (rotate_cw z)) h
    simp only at h2
    rwa [rotate_cw_four hX] at h2
  · intro h
    rw [h]
    exact rotate_cw_four hb

theorem slide_three_eq_iff {b : Board} (hb : b.Valid) :
    slide b 3 = b ↔
      merge_left (rotate_cw (rotate_cw (rotate_cw b))) =
        rotate_cw (rotate_cw (rotate_cw b)) := by
  have hX : (merge_left (rotate_cw (rotate_cw (rotate_cw b)))).Valid :=
    merge_left_valid (rotate_cw_valid _)
  rw [slide_three]
  constructor
  · intro h
    have h2 := congrArg (fun z => rotate_cw (rotate_cw (rotate_cw z))) h
    simp only at h2
    rwa [rotate_cw_four hX] at h2
  · intro h
    rw [h]
    exact rotate_cw_four hb

/-! ## The loss detector -/

theorem is_loss_unfold (b : Board) :
    is_loss b =
      (decide (b = merge_left b) &&
        decide (rotate_cw b = merge_left (rotate_cw b)) &&
        decide (rotate_cw (rotate_cw b) = merge_left (rotate_cw (rotate_cw b))) &&
        decide (rotate_cw (rotate_cw (rotate_cw b)) =
          merge_left (rotate_cw (rotate_cw (rotate_cw b))))) := rfl

/-- C7: `is_loss` holds iff no direction's merge step changes the grid:
equivalently, `merge_left` fixes the grid and each of its three successive
clockwise rotations. -/
theorem is_loss_iff_no_move_changes {b : Board} (hb : b.Valid) :
    is_loss b = true ↔
      ∀ key : Key, key ≠ .other → slide b (cw_rotations_of_key key) = b := by
  rw [is_loss_unfold]
  simp only [Bool.and_eq_true, decide_eq_true_eq]
  constructor
  · rintro ⟨⟨⟨h0, h1⟩, h2⟩, h3⟩ key hkey
    cases key with
    | left => exact (slide_zero_eq_iff hb).mpr h0.symm
    | down => exact (slide_one_eq_iff hb).mpr h1.symm
    | right => exact (slide_two_eq_iff hb).mpr h2.symm
    | up => exact (slide_three_eq_iff hb).mpr h3.symm
    | other => exact absurd rfl hkey
  · intro h
    refine ⟨⟨⟨?_, ?_⟩, ?_⟩, ?_⟩
    · exact ((slide_zero_eq_iff hb).mp (h .left (by simp))).symm
    · exact ((slide_one_eq_iff hb).mp (h .down (by simp))).symm
    · exact ((slide_two_eq_iff hb).mp (h .right (by simp))).symm
    · exact ((slide_three_eq_iff hb).mp (h .up (by simp))).symm

/-- Closed instance of `is_loss_iff_no_move_changes` at a concrete stuck board. -/
theorem is_loss_iff_no_move_changes_witness :
    Board.Valid [[1, 2, 1, 2], [2, 1, 2, 1], [1, 2, 1, 2], [2, 1, 2, 1]] ∧
      (is_loss [[1, 2, 1, 2], [2, 1, 2, 1], [1, 2, 1, 2], [2, 1, 2, 1]] = true ↔
        ∀ key : Key, key ≠ .other →
          slide [[1, 2, 1, 2], [2, 1, 2, 1], [1, 2, 1, 2], [2, 1, 2, 1]]
            (cw_rotations_of_key key) =
            [[1, 2, 1, 2], [2, 1, 2, 1], [1, 2, 1, 2], [2, 1, 2, 1]]) :=
  ⟨by decide, is_loss_iff_no_move_changes (by decide)⟩

/-! ## The spawner precondition -/

theorem count_zeros_merge_pos {y : Board} (hy : y.Valid)
    (hne : merge_left y ≠ y) : 0 < count_zeros (merge_left y) := by
  by_contra hz
  have hzm : count_zeros (merge_left y) = 0 := by omega
  have hzy : count_zeros y = 0 :=
    Nat.le_zero.mp (hzm ▸ count_zeros_merge_le hy)
  exact hne (merge_left_of_full hy hzy hzm)

theorem count_zeros_slide_pos {b : Board} (hb : b.Valid) (key : Key)
    (hkey : key ≠ .other)
    (hne : slide b (cw_rotations_of_key key) ≠ b) :
    0 < count_zeros (slide b (cw_rotations_of_key key)) := by
  cases key with
  | other => exact absurd rfl hkey
  | left =>
    rw [show cw_rotations_of_key .left = 0 from rfl] at hne ⊢
    rw [slide_zero_valid b hb] at hne ⊢
    exact count_zeros_merge_pos hb hne
  | down =>
    have hrb : (rotate_cw b).Valid := rotate_cw_valid b
    have hX : (merge_left (rotate_cw b)).Valid := merge_left_valid hrb
    rw [show cw_rotations_of_key .down = 1 from rfl] at hne ⊢
    rw [slide_one] at hne ⊢
    rw [count_zeros_rotate_cw (rotate_cw_valid _),
      count_zeros_rotate_cw (rotate_cw_valid _), count_zeros_rotate_cw hX]
    apply count_zeros_merge_pos hrb
    intro hXe
    exact hne (by rw [hXe]; exact rotate_cw_four hb)
  | right =>
    have hrb : (rotate_cw (rotate_cw b)).Valid := rotate_cw_valid _
    have hX : (merge_left (rotate_cw (rotate_cw b))).Valid := merge_left_valid hrb
    rw [show cw_rotations_of_key .right = 2 from rfl] at hne ⊢
    rw [slide_two] at hne ⊢
    rw [count_zeros_rotate_cw (rotate_cw_valid _), count_zeros_rotate_cw hX]
    apply count_zeros_merge_pos hrb
    intro hXe
    exact hne (by rw [hXe]; exact rotate_cw_four hb)
  | up =>
    have hrb : (rotate_cw (rotate_cw (rotate_cw b))).Valid := rotate_cw_valid _
    have hX : (merge_left (rotate_cw (rotate_cw (rotate_cw b)))).Valid :=
      merge_left_valid hrb
    rw [show cw_rotations_of_key .up = 3 from rfl] at hne ⊢
    rw [slide_three] at hne ⊢
    rw [count_zeros_rotate_cw hX]
    apply count_zeros_merge_pos hrb
    intro hXe
    exact hne (by rw [hXe]; exact rotate_cw_four hb)

/-- C6: whenever `update` reaches the spawner (the key is a direction and the
merged-and-rotated-back grid differs from the input grid), the grid handed to
`new_tile` has at least one empty cell, so `rand_r(seed) % zeros` never
divides by zero. -/
theorem spawner_grid_has_empty_cell (g : Game) (hb : g.board.Valid) (key : Key)
    (hguard : ¬ cw_rotations_of_key key < 0)
    (hne : slide g.board (cw_rotations_of_key key) ≠ g.board) :
    0 < count_zeros (slide g.board (cw_rotations_of_key key)) := by
  have hkey : key ≠ .other := by
    intro he
    subst he
    exact hguard (by decide)
  exact count_zeros_slide_pos hb key hkey hne

/-- Closed instance of `spawner_grid_has_empty_cell` at a concrete move. -/
theorem spawner_grid_has_empty_cell_witness :
    Board.Valid (Game.board ⟨[[1, 1, 0, 0], [0, 0, 0, 0], [0, 0, 0, 0], [0, 0, 0, 0]], 0, 0⟩) ∧
      ¬ cw_rotations_of_key .left < 0 ∧
      slide (Game.board ⟨[[1, 1, 0, 0], [0, 0, 0, 0], [0, 0, 0, 0], [0, 0, 0, 0]], 0, 0⟩)
          (cw_rotations_of_key .left) ≠
        Game.board ⟨[[1, 1, 0, 0], [0, 0, 0, 0], [0, 0, 0, 0], [0, 0, 0, 0]], 0, 0⟩ ∧
      0 < count_zeros (slide
        (Game.board ⟨[[1, 1, 0, 0], [0, 0, 0, 0], [0, 0, 0, 0], [0, 0, 0, 0]], 0, 0⟩)
        (cw_rotations_of_key .left)) :=
  ⟨by decide, by decide, by decide,
    spawner_grid_has_empty_cell
      ⟨[[1, 1, 0, 0], [0, 0, 0, 0], [0, 0, 0, 0], [0, 0, 0, 0]], 0, 0⟩
      (by decide) .left (by decide) (by decide)⟩

/-! ## The spawner: exact characterisation -/

theorem zeroPos_length (l : List Nat) :
    (zeroPos l).length = l.countP (· = 0) := by
  induction l with
  | nil => rfl
  | cons x xs ih =>
    by_cases hx : x = 0 <;> simp [zeroPos, hx, ih, List.countP_cons]

theorem emptyCells_length (b : Board) :
    (emptyCells b).length = count_zeros b := by
  induction b with
  | nil => rfl
  | cons row rows ih =>
    simp [emptyCells, count_zeros, ih, zeroPos_length, List.countP_cons]

theorem getD_map_add_one (zs : List Nat) :
    ∀ n, n < zs.length → ((zs.map (· + 1)).getD n 0) = zs.getD n 0 + 1 := by
  induction zs with
  | nil => intro n h; simp at h
  | cons x xs ih =>
    intro n h
    cases n with
    | zero => rfl
    | succ m => exact ih m (by simpa using h)

theorem getD_map_shift (ps : List (Nat × Nat)) :
    ∀ n, n < ps.length →
      ((ps.map fun p => (p.1 + 1, p.2)).getD n (0, 0)) =
        ((ps.getD n (0, 0)).1 + 1, (ps.getD n (0, 0)).2) := by
  induction ps with
  | nil => intro n h; simp at h
  | cons x xs ih =>
    intro n h
    cases n with
    | zero => rfl
    | succ m => exact ih m (by simpa using h)

theorem spawnRow_snd (l : List Nat) (v : Nat) :
    ∀ t : Int, (spawnRow l t v).2 = t - l.countP (· = 0) := by
  induction l with
  | nil => intro t; simp [spawnRow]
  | cons x xs ih =>
    intro t
    by_cases hx : x = 0
    · simp [spawnRow, hx, ih, List.countP_cons]
      omega
    · simp [spawnRow, hx, ih, List.countP_cons]

theorem spawnRow_neg (l : List Nat) (v : Nat) :
    ∀ t : Int, t < 0 → (spawnRow l t v).1 = l := by
  induction l with
  | nil => intro t _; rfl
  | cons x xs ih =>
    intro t h
    have ht : ¬t = 0 := by omega
    by_cases hx : x = 0
    · simp [spawnRow, hx, ht, ih (t - 1) (by omega)]
    · simp [spawnRow, hx, ih t h]

theorem spawnRow_ge (l : List Nat) (v : Nat) :
    ∀ t : Int, (l.countP (· = 0) : Int) ≤ t → (spawnRow l t v).1 = l := by
  induction l with
  | nil => intro t _; rfl
  | cons x xs ih =>
    intro t h
    rw [List.countP_cons] at h
    by_cases hx : x = 0
    · have hx' : (if decide (x = 0) = true then 1 else 0) = 1 := by simp [hx]
      rw [hx'] at h
      have ht : ¬t = 0 := by omega
      simp [spawnRow, hx, ht, ih (t - 1) (by push_cast; omega)]
    · have hx' : (if decide (x = 0) = true then 1 else 0) = 0 := by simp [hx]
      rw [hx'] at h
      simp [spawnRow, hx, ih t (by push_cast at h ⊢; omega)]

theorem spawnRow_write (l : List Nat) (v : Nat) :
    ∀ n : Nat, n < (zeroPos l).length →
      (spawnRow l (n : Int) v).1 = l.set ((zeroPos l).getD n 0) v := by
  induction l with
  | nil => intro n hlt; simp [zeroPos] at hlt
  | cons x xs ih =>
    intro n hlt
    by_cases hx : x = 0
    · subst hx
      cases n with
      | zero =>
        simp [spawnRow, zeroPos, spawnRow_neg xs v (-1) (by omega)]
      | succ m =>
        have hlt' : m < (zeroPos xs).length := by
          rw [zeroPos] at hlt
          simpa using hlt
        have hcast : ((m + 1 : Nat) : Int) - 1 = (m : Int) := by push_cast; ring
        have hne : ¬((m + 1 : Nat) : Int) = 0 := by omega
        rw [spawnRow]
        simp only [ne_eq, not_true_eq_false, if_false, ite_false, hne, hcast,
          ih m hlt']
        rw [zeroPos, if_pos rfl,
          show (0 :: (zeroPos xs).map (· + 1)).getD (m + 1) 0 =
            ((zeroPos xs).map (· + 1)).getD m 0 from rfl,
          getD_map_add_one (zeroPos xs) m hlt']
        rfl
    · have hmap : zeroPos (x :: xs) = (zeroPos xs).map (· + 1) := by
        rw [zeroPos, if_neg hx]
      have hlt' : n < (zeroPos xs).length := by
        rw [hmap] at hlt
        simpa using hlt
      rw [spawnRow]
      simp only [ne_eq, hx, not_false_eq_true, if_true, ite_true,
        ih n hlt', hmap, getD_map_add_one (zeroPos xs) n hlt']
      rfl

theorem getD_map_pair (zs : List Nat) :
    ∀ n, n < zs.length →
      ((zs.map fun j => ((0 : Nat), j)).getD n (0, 0)) = (0, zs.getD n 0) := by
  induction zs with
  | nil => intro n h; simp at h
  | cons x xs ih =>
    intro n h
    cases n with
    | zero => rfl
    | succ m => exact ih m (by simpa using h)

theorem spawnRows_neg (rows : List (List Nat)) (v : Nat) :
    ∀ t : Int, t < 0 → (spawnRows rows t v).1 = rows := by
  induction rows with
  | nil => intro t _; rfl
  | cons row rs ih =>
    intro t h
    show (spawnRow row t v).1 :: (spawnRows rs (spawnRow row t v).2 v).1 = row :: rs
    rw [spawnRow_neg row v t h, spawnRow_snd row v t, ih _ (by omega)]

theorem spawnRows_write (rows : List (List Nat)) (v : Nat) :
    ∀ n : Nat, n < (emptyCells rows).length →
      (spawnRows rows (n : Int) v).1 =
        setCell rows ((emptyCells rows).getD n (0, 0)).1
          ((emptyCells rows).getD n (0, 0)).2 v := by
  induction rows with
  | nil => intro n h; simp [emptyCells] at h
  | cons row rs ih =>
    intro n h
    have hlenmap : ((zeroPos row).map fun j => ((0 : Nat), j)).length =
        (zeroPos row).length := List.length_map _ _
    by_cases hn : n < (zeroPos row).length
    · have hget : (emptyCells (row :: rs)).getD n (0, 0) =
          (0, (zeroPos row).getD n 0) := by
        rw [emptyCells, List.getD_append _ _ _ _ (by omega),
          getD_map_pair (zeroPos row) n hn]
      rw [hget]
      show (spawnRow row (n : Int) v).1 ::
          (spawnRows rs (spawnRow row (n : Int) v).2 v).1 =
        setCell (row :: rs) 0 ((zeroPos row).getD n 0) v
      rw [spawnRow_write row v n hn, spawnRow_snd row v (n : Int),
        spawnRows_neg rs v _ (by
          have hz := zeroPos_length row
          omega)]
      rfl
    · have hz := zeroPos_length row
      have hnz : (zeroPos row).length ≤ n := le_of_not_lt hn
      have hbound : n - (zeroPos row).length < (emptyCells rs).length := by
        rw [emptyCells] at h
        simp only [List.length_append, List.length_map] at h
        omega
      have hget : (emptyCells (row :: rs)).getD n (0, 0) =
          (((emptyCells rs).getD (n - (zeroPos row).length) (0, 0)).1 + 1,
            ((emptyCells rs).getD (n - (zeroPos row).length) (0, 0)).2) := by
        rw [emptyCells, List.getD_append_right _ _ _ _ (by omega), hlenmap,
          getD_map_shift (emptyCells rs) _ hbound]
      rw [hget]
      show (spawnRow row (n : Int) v).1 ::
          (spawnRows rs (spawnRow row (n : Int) v).2 v).1 =
        setCell (row :: rs)
          (((emptyCells rs).getD (n - (zeroPos row).length) (0, 0)).1 + 1)
          ((emptyCells rs).getD (n - (zeroPos row).length) (0, 0)).2 v
      rw [spawnRow_ge row v (n : Int) (by omega), spawnRow_snd row v (n : Int),
        show (n : Int) - (row.countP (· = 0) : Int) =
          ((n - (zeroPos row).length : Nat) : Int) from by push_cast; omega,
        ih (n - (zeroPos row).length) hbound]
      rfl

/-- C9: with at least one empty cell, `new_tile` writes exponent 2 (when the
second draw is 0 mod 10) or exponent 1 (otherwise) into exactly the
`(k+1)`-th empty cell in row-major order, `k` being the first draw reduced
modulo the number of empty cells, and leaves every other cell unchanged. -/
theorem new_tile_spec {b : Board} (hz : 0 < count_zeros b) (r1 r2 : Nat) :
    r1 % count_zeros b < (emptyCells b).length ∧
      new_tile b r1 r2 =
        setCell b ((emptyCells b).getD (r1 % count_zeros b) (0, 0)).1
          ((emptyCells b).getD (r1 % count_zeros b) (0, 0)).2
          (if r2 % 10 = 0 then 2 else 1) := by
  have hk : r1 % count_zeros b < (emptyCells b).length := by
    rw [emptyCells_length]
    exact Nat.mod_lt r1 hz
  refine ⟨hk, ?_⟩
  show (spawnRows b ((r1 % count_zeros b : Nat) : Int)
      (1 + if r2 % 10 < 1 then 1 else 0)).1 = _
  rw [spawnRows_write b _ _ hk]
  congr 1
  rcases Nat.eq_zero_or_pos (r2 % 10) with h10 | h10
  · simp [h10]
  · have : ¬ r2 % 10 < 1 := by omega
    have : ¬ r2 % 10 = 0 := by omega
    simp_all

/-- Closed instance of `new_tile_spec` at a concrete board and draws. -/
theorem new_tile_spec_witness :
    0 < count_zeros [[0, 1, 0, 0], [0, 0, 0, 0], [0, 0, 0, 0], [0, 0, 0, 0]] ∧
      (2 % count_zeros [[0, 1, 0, 0], [0, 0, 0, 0], [0, 0, 0, 0], [0, 0, 0, 0]] <
          (emptyCells [[0, 1, 0, 0], [0, 0, 0, 0], [0, 0, 0, 0], [0, 0, 0, 0]]).length ∧
        new_tile [[0, 1, 0, 0], [0, 0, 0, 0], [0, 0, 0, 0], [0, 0, 0, 0]] 2 10 =
          setCell [[0, 1, 0, 0], [0, 0, 0, 0], [0, 0, 0, 0], [0, 0, 0, 0]]
            ((emptyCells [[0, 1, 0, 0], [0, 0, 0, 0], [0, 0, 0, 0], [0, 0, 0, 0]]).getD
              (2 % count_zeros [[0, 1, 0, 0], [0, 0, 0, 0], [0, 0, 0, 0], [0, 0, 0, 0]]) (0, 0)).1
            ((emptyCells [[0, 1, 0, 0], [0, 0, 0, 0], [0, 0, 0, 0], [0, 0, 0, 0]]).getD
              (2 % count_zeros [[0, 1, 0, 0], [0, 0, 0, 0], [0, 0, 0, 0], [0, 0, 0, 0]]) (0, 0)).2
            (if 10 % 10 = 0 then 2 else 1)) :=
  ⟨by decide, new_tile_spec (by decide) 2 10⟩

/-! ## The scorer versus the specified scoring rule -/

/-- C1 refuted: on the legal transition "push the rows
`[2,2,2,2] / [1,1,1,1] / [1,1,0,0] / [0,0,0,0]` left", the merge creates two
8-tiles and three 4-tiles (worth 28), the specified per-surplus-unit rule
scores 28, but `dscore` — subtracting a flat 2 instead of `2·dcount` at
`v-1` — scores only 20. -/
theorem dscore_flat_decrement_bug :
    merge_left [[2, 2, 2, 2], [1, 1, 1, 1], [1, 1, 0, 0], [0, 0, 0, 0]] =
        [[3, 3, 0, 0], [2, 2, 0, 0], [2, 0, 0, 0], [0, 0, 0, 0]] ∧
      dscore [[2, 2, 2, 2], [1, 1, 1, 1], [1, 1, 0, 0], [0, 0, 0, 0]]
        [[3, 3, 0, 0], [2, 2, 0, 0], [2, 0, 0, 0], [0, 0, 0, 0]] = 20 ∧
      dscoreSpec [[2, 2, 2, 2], [1, 1, 1, 1], [1, 1, 0, 0], [0, 0, 0, 0]]
        [[3, 3, 0, 0], [2, 2, 0, 0], [2, 0, 0, 0], [0, 0, 0, 0]] = 28 := by
  refine ⟨by decide, by decide, by decide⟩

-- Sanity checks of the embedding on concrete values.
example : merge_row_left [1, 1, 0, 0] = [2, 0, 0, 0] := by decide
example : merge_row_left [1, 1, 1, 0] = [2, 1, 0, 0] := by decide
example : merge_row_left [2, 2, 2, 2] = [3, 3, 0, 0] := by decide
example : merge_row_left [2, 1, 1, 0] = [2, 2, 0, 0] := by decide
example : merge_row_left [0, 3, 0, 3] = [4, 0, 0, 0] := by decide
example : rotate_cw [[1,2,3,4],[5,6,7,8],[9,10,11,12],[13,14,15,16]] =
    [[13,9,5,1],[14,10,6,2],[15,11,7,3],[16,12,8,4]] := by decide
example : count_zeros [[0,1,0,0],[0,0,0,0],[0,0,2,0],[0,0,0,0]] = 14 := by decide
example : dscore [[1,1,0,0],[0,0,0,0],[0,0,0,0],[0,0,0,0]]
    [[2,0,0,0],[0,0,0,0],[0,0,0,0],[0,0,0,0]] = 4 := by decide
example : new_tile [[0,1,0,0],[0,0,0,0],[0,0,0,0],[0,0,0,0]] 2 10 =
    [[0,1,0,2],[0,0,0,0],[0,0,0,0],[0,0,0,0]] := by decide
example : new_tile [[0,1,0,0],[0,0,0,0],[0,0,0,0],[0,0,0,0]] 0 20 =
    [[2,1,0,0],[0,0,0,0],[0,0,0,0],[0,0,0,0]] := by decide
example : is_loss [[1,2,1,2],[2,1,2,1],[1,2,1,2],[2,1,2,1]] = true := by decide
example : is_loss [[1,1,1,2],[2,1,2,1],[1,2,1,2],[2,1,2,1]] = false := by decide


end Game2048
